import Mathlib

/-!
Shallow embedding of `src/bpnetlite/bpnet.py` (the BPNet model of the
bpnet-lite-lightning package).  Tensors are nested lists of rationals:
a `(channels, length)` tensor is a `List (List ℚ)` and a batched
`(batch, channels, length)` tensor is a `List (List (List ℚ))`.
Real-valued library functions that have no exact rational counterpart
(`torch.log`, the log-sum-exp inside `log_softmax`, the normalizing
constant of the multinomial likelihood, and the validation performance
measures) are taken as explicit function parameters, so every theorem
below holds for every interpretation of them.
-/

abbrev Tensor1 := List ℚ
abbrev Tensor2 := List (List ℚ)
abbrev Tensor3 := List (List (List ℚ))

/-- `torch.nn.ReLU` on a single row: pointwise maximum with zero. -/
def relu1 (v : Tensor1) : Tensor1 := v.map (fun a => max a 0)

/-- `torch.nn.ReLU` on a `(channels, length)` tensor. -/
def relu2 (x : Tensor2) : Tensor2 := x.map relu1

/-- `torch.add` of two `(channels, length)` tensors of identical shape. -/
def add2 (a b : Tensor2) : Tensor2 := List.zipWith (List.zipWith (· + ·)) a b

/-- `torch.mean` of a row (mean over the last dimension). -/
def meanQ (v : Tensor1) : ℚ := v.sum / v.length

/-- Python slice semantics `l[s:e]` with step 1: a negative index counts
from the end of the list and the bounds are clamped to `[0, len]`. -/
def pySlice (s e : ℤ) (l : List α) : List α :=
  let n : ℤ := l.length
  let s1 : ℤ := if s < 0 then max 0 (n + s) else min s n
  let e1 : ℤ := if e < 0 then max 0 (n + e) else min e n
  (l.drop s1.toNat).take (e1 - s1).toNat

/-- Running a batch of fallible per-example computations in order;
the whole batch fails as soon as one example fails. -/
def seqMap (f : α → Option β) : List α → Option (List β)
  | [] => some []
  | a :: l =>
    match f a, seqMap f l with
    | some b, some bl => some (b :: bl)
    | _, _ => none

/-- `torch.cat` along the batch axis: concatenation of the chunk outputs.
`torch.cat` raises on an empty list of tensors, hence the `Option`. -/
def torchCat (ts : List (List α)) : Option (List α) :=
  if ts.isEmpty then none else some ts.flatten

/-- A `torch.nn.Conv1d` module: its constructor arguments together with
its (arbitrarily initialized) weight and bias data.  `weight` has shape
`(outChannels, inChannels, kernelSize)`. -/
structure Conv1d where
  inChannels : ℕ
  outChannels : ℕ
  kernelSize : ℕ
  padding : ℕ
  dilation : ℕ
  weight : Tensor3
  bias : Tensor1
  deriving DecidableEq

/-- Reading position `m` of a row zero-padded by `p` on each side. -/
def padGet (row : Tensor1) (p m : ℕ) : ℚ :=
  if p ≤ m then row.getD (m - p) 0 else 0

/-- One kernel sweep of a dilated convolution at output position `j`. -/
def tapSum (wrow row : Tensor1) (p d j k : ℕ) : ℚ :=
  ((List.range k).map (fun t => wrow.getD t 0 * padGet row p (j + t * d))).sum

/-- Entry `(co, j)` of the convolution output. -/
def convEntry (c : Conv1d) (x : Tensor2) (co j : ℕ) : ℚ :=
  c.bias.getD co 0 +
    ((List.range c.inChannels).map (fun ci =>
      tapSum ((c.weight.getD co []).getD ci []) (x.getD ci []) c.padding c.dilation j
        c.kernelSize)).sum

/-- Spatial length of the output of a stride-1 `Conv1d` on input length `L`:
`L + 2*padding - dilation*(kernelSize - 1)`. -/
def convOutLen (c : Conv1d) (L : ℕ) : ℕ :=
  L + 2 * c.padding - c.dilation * (c.kernelSize - 1)

/-- Applying a `Conv1d` to a `(channels, length)` tensor.  PyTorch raises a
shape-mismatch error when the channel count of the input differs from the
module's `in_channels`; that failure is the `none` branch. -/
def Conv1d.forward (c : Conv1d) (x : Tensor2) : Option Tensor2 :=
  if x.length = c.inChannels then
    some ((List.range c.outChannels).map (fun co =>
      (List.range (convOutLen c (x.getD 0 []).length)).map (fun j => convEntry c x co j)))
  else none

/-- A `torch.nn.Linear` module; `weight` has shape `(outFeatures, inFeatures)`. -/
structure Linear where
  inFeatures : ℕ
  weight : Tensor2
  bias : Tensor1

/-- Applying a `Linear` to a single feature vector.  PyTorch raises a
shape-mismatch error when the vector length differs from `in_features`. -/
def Linear.forward (l : Linear) (v : Tensor1) : Option Tensor1 :=
  if v.length = l.inFeatures then
    some ((List.range l.weight.length).map (fun o =>
      l.bias.getD o 0 + (List.zipWith (· * ·) (l.weight.getD o []) v).sum))
  else none

/-- The arguments of `BPNet.__init__`, with the Python default values.
PyTorch initializes the weights of each layer randomly; here they are
explicit arguments, so every theorem quantifies over them. -/
structure InitArgs where
  n_filters : ℕ := 64
  n_layers : ℕ := 8
  n_outputs : ℕ := 2
  n_control_tracks : ℕ := 2
  alpha : ℚ := 1
  profile_output_bias : Bool := true
  count_output_bias : Bool := true
  trimming : Option ℕ := none
  iconvW : Tensor3 := []
  iconvB : Tensor1 := []
  rconvW : ℕ → Tensor3 := fun _ => []
  rconvB : ℕ → Tensor1 := fun _ => []
  fconvW : Tensor3 := []
  fconvB : Tensor1 := []
  linearW : Tensor2 := []
  linearB : Tensor1 := []

/-- Python's `trimming or 2 ** n_layers` (bpnet.py line 141): both `None`
and the falsy value `0` select the default `2 ** n_layers`. -/
def pyOr (t : Option ℕ) (d : ℕ) : ℕ :=
  match t with
  | none => d
  | some 0 => d
  | some k => k

/-- The `i`-th dilated residual convolution of the tower (0-based here;
the source builds them for `i in range(1, n_layers+1)` with kernel 3,
`padding = dilation = 2**i`). -/
def rconvDef (a : InitArgs) (idx : ℕ) : Conv1d :=
  { inChannels := a.n_filters, outChannels := a.n_filters, kernelSize := 3,
    padding := 2 ^ (idx + 1), dilation := 2 ^ (idx + 1),
    weight := a.rconvW idx, bias := a.rconvB idx }

/-- The BPNet model state after `__init__`. -/
structure BPNet where
  n_filters : ℕ
  n_layers : ℕ
  n_outputs : ℕ
  n_control_tracks : ℕ
  alpha : ℚ
  trimming : ℕ
  iconv : Conv1d
  rconvs : List Conv1d
  fconv : Conv1d
  linear : Linear

/-- `BPNet.__init__` (bpnet.py lines 125-177): stores the configuration,
derives `trimming` via Python `or`, and builds the initial wide
convolution, the dilated residual stack, the profile head and the count
head.  A disabled bias flag gives the layer a zero bias vector. -/
def BPNet.init (a : InitArgs) : BPNet :=
  { n_filters := a.n_filters
    n_layers := a.n_layers
    n_outputs := a.n_outputs
    n_control_tracks := a.n_control_tracks
    alpha := a.alpha
    trimming := pyOr a.trimming (2 ^ a.n_layers)
    iconv := { inChannels := 4, outChannels := a.n_filters, kernelSize := 21,
               padding := 10, dilation := 1, weight := a.iconvW, bias := a.iconvB }
    rconvs := (List.range a.n_layers).map (rconvDef a)
    fconv := { inChannels := a.n_filters + a.n_control_tracks,
               outChannels := a.n_outputs, kernelSize := 75, padding := 37,
               dilation := 1, weight := a.fconvW,
               bias := if a.profile_output_bias then a.fconvB
                       else List.replicate a.n_outputs 0 }
    linear := { inFeatures := a.n_filters + (if 0 < a.n_control_tracks then 1 else 0),
                weight := a.linearW,
                bias := if a.count_output_bias then a.linearB else [0] } }

/-- The window `[:, :, start-37:end+37]` used by the count head
(bpnet.py lines 221 and 224), with `start = trimming` and
`end = L - trimming` computed from the input length `L`; Python slice
semantics apply, so a negative `start-37` counts from the end of row. -/
def countWindow (t L : ℕ) (row : Tensor1) : Tensor1 :=
  pySlice ((t : ℤ) - 37) (((L : ℤ) - (t : ℤ)) + 37) row

/-- One dilated residual block (bpnet.py lines 209-211):
`X = torch.add(X, rrelu(rconv(X)))`. -/
def resBlock (c : Conv1d) (x : Tensor2) : Option Tensor2 :=
  (c.forward x).map (fun y => add2 x (relu2 y))

/-- The `for i in range(self.n_layers)` loop over the residual blocks. -/
def resStack : List Conv1d → Tensor2 → Option Tensor2
  | [], x => some x
  | c :: cs, x =>
    match resBlock c x with
    | none => none
    | some y => resStack cs y

/-- `BPNet.forward` on a single example (bpnet.py lines 206-229); `lg`
interprets `torch.log`.  The batched version maps this over the batch. -/
def BPNet.forwardEx (m : BPNet) (lg : ℚ → ℚ) (x : Tensor2) (xctl : Option Tensor2) :
    Option (Tensor2 × ℚ) :=
  let L := (x.getD 0 []).length
  let s : ℤ := (m.trimming : ℤ)
  let e : ℤ := (L : ℤ) - (m.trimming : ℤ)
  match m.iconv.forward x with
  | none => none
  | some X0 =>
    match resStack m.rconvs (relu2 X0) with
    | none => none
    | some X2 =>
      let Xw : Tensor2 := match xctl with | none => X2 | some c => X2 ++ c
      match m.fconv.forward Xw with
      | none => none
      | some yp =>
        let y_profile := yp.map (fun row => pySlice s e row)
        let Xm := X2.map (fun row => meanQ (countWindow m.trimming L row))
        let Xf : Tensor1 :=
          match xctl with
          | none => Xm
          | some c =>
            Xm ++ [lg ((c.map (fun row => (countWindow m.trimming L row).sum)).sum + 1)]
        match m.linear.forward Xf with
        | none => none
        | some yc => some (y_profile, yc.getD 0 0)

/-- `BPNet.forward` on a batch: every tensor operation in the source acts
independently on each example of the batch, and `torch.cat` along the
channel axis requires the control batch to have the same batch count.
Returns the `(batch, n_outputs, out_length)` profile and the
`(batch, 1)` counts (`y_counts = linear(X).reshape(batch, 1)`). -/
def BPNet.forward (m : BPNet) (lg : ℚ → ℚ) (X : Tensor3) (Xctl : Option Tensor3) :
    Option (Tensor3 × Tensor2) :=
  match Xctl with
  | none =>
    (seqMap (fun x => m.forwardEx lg x none) X).map
      (fun rs => (rs.map Prod.fst, rs.map (fun r => [r.2])))
  | some C =>
    if X.length = C.length then
      (seqMap (fun p => m.forwardEx lg p.1 (some p.2)) (X.zip C)).map
        (fun rs => (rs.map Prod.fst, rs.map (fun r => [r.2])))
    else none

/-- `BPNet.predict` (bpnet.py lines 231-278): `numpy.arange(0, N, batch_size)`
yields `⌈N / batch_size⌉` chunk starts; each chunk `X[start:start+batch_size]`
is run through `self(X_batch, X_ctl_batch)` and the per-chunk outputs are
concatenated with `torch.cat`. -/
def BPNet.predict (m : BPNet) (lg : ℚ → ℚ) (X : Tensor3) (Xctl : Option Tensor3)
    (bs : ℕ) : Option (Tensor3 × Tensor2) :=
  let k := (X.length + bs - 1) / bs
  match seqMap (fun i =>
      m.forward lg (pySlice ((i * bs : ℕ) : ℤ) ((i * bs + bs : ℕ) : ℤ) X)
        (Xctl.map (fun C => pySlice ((i * bs : ℕ) : ℤ) ((i * bs + bs : ℕ) : ℤ) C)))
    (List.range k) with
  | none => none
  | some rs =>
    match torchCat (rs.map Prod.fst), torchCat (rs.map Prod.snd) with
    | some yps, some ycs => some (yps, ycs)
    | _, _ => none

/-- Gradient-tracking effect of `BPNet.predict`.  The source body
(bpnet.py lines 263-278) contains no `torch.no_grad()` block — contrary
to the docstring on lines 231-237 — so each per-chunk `self(X_batch,
X_ctl_batch)` call executes under the ambient autograd mode; gradient
information is recorded whenever that mode is enabled and at least one
chunk is processed.  The second component reports that effect. -/
def BPNet.predictTracked (m : BPNet) (lg : ℚ → ℚ) (gradModeEnabled : Bool)
    (X : Tensor3) (Xctl : Option Tensor3) (bs : ℕ) :
    Option (Tensor3 × Tensor2) × Bool :=
  (m.predict lg X Xctl bs, gradModeEnabled && decide (0 < (X.length + bs - 1) / bs))

/-- `torch.nn.functional.log_softmax` over the last axis; `lse`
interprets the log-sum-exp of a row (a real-valued quantity with no
exact rational counterpart). -/
def logSoftmax (lse : Tensor1 → ℚ) (v : Tensor1) : Tensor1 :=
  v.map (fun a => a - lse v)

/-- Splitting a flat row back into rows of the given lengths:
`y_profile.reshape(*z)` after the flattened log-softmax. -/
def splitLens : List ℕ → Tensor1 → Tensor2
  | [], _ => []
  | n :: ns, v => v.take n :: splitLens ns (v.drop n)

/-- Modelled from the spec: `MNLLLoss` lives in `bpnetlite/losses.py`,
which is not under `src/` (bpnet.py only imports it).  Per spec section
4.1 it returns, per example, the negative multinomial log-likelihood
`-sum(observed * log_probabilities)` plus the log-multinomial-normalizing
constant of the total observed count; the normalizing constant `nc` is a
real-valued function taken as a parameter. -/
def MNLLLoss (nc : ℚ → ℚ) (logps obs : Tensor2) : Tensor1 :=
  List.zipWith (fun lp o => -(List.zipWith (· * ·) o lp).sum + nc o.sum) logps obs

/-- Modelled from the spec: `log1pMSELoss` lives in `bpnetlite/losses.py`,
which is not under `src/`.  Per spec section 4.1 it returns, per example,
`(predicted_log_count - log(1 + observed_count))^2`; `lg` interprets
`log`.  Both arguments arrive with shape `(batch, 1)`. -/
def log1pMSELoss (lg : ℚ → ℚ) (predLog obs : Tensor2) : Tensor1 :=
  List.zipWith (fun p o => (p.getD 0 0 - lg (o.getD 0 0 + 1)) ^ 2) predLog obs

/-- The validation measures record returned by
`calculate_performance_measures`; the function itself lives in
`bpnetlite/performance.py`, which is not under `src/`, so `training_step`
below takes the measure computation as an abstract parameter. -/
structure Measures where
  profile_mnll : Tensor1
  profile_pearson : Tensor1
  count_pearson : Tensor1
  count_mse : Tensor1

/-- The mutable training state named by the spec (section 3): the global
iteration counter, the best validation loss observed so far and the
early-stop counter.  The Lightning harness increments the iteration
counter after every training step. -/
structure TrainState where
  iteration : ℕ
  bestLoss : ℚ
  earlyStopCount : ℕ

/-- Everything one call of `training_step` produces: the returned scalar
loss, the validation measures and validation loss it computed (`none`
would mean the validation block was skipped — the source never skips it),
whether a best-model checkpoint artifact was written during the step, and
the training state afterwards. -/
structure StepResult where
  loss : ℚ
  validated : Option (Measures × ℚ)
  savedBest : Bool
  state : TrainState

/-- `BPNet.training_step` (bpnet.py lines 281-344).  The batch is
`(X, X_ctl?, y)`; `valid` bundles `self.X_valid`, `self.X_ctl_valid` and
`self.y_valid` (`none` when no validation set was supplied, in which case
the unconditional `self.predict(self.X_valid, ...)` call on line 305
fails on the `None` tensor).  `lse`, `nc`, `lg` interpret the real-valued
library functions and `perf` interprets `calculate_performance_measures`.
The checkpoint / best-loss / early-stop block on lines 337-342 is
commented out in the source, so the step writes no artifact and leaves
`bestLoss` and `earlyStopCount` unchanged. -/
def BPNet.training_step (m : BPNet) (lg : ℚ → ℚ) (lse : Tensor1 → ℚ) (nc : ℚ → ℚ)
    (perf : Tensor3 → Tensor3 → Tensor2 → Measures) (st : TrainState)
    (batch : Tensor3 × Option Tensor3 × Tensor3)
    (valid : Option (Tensor3 × Option Tensor3 × Tensor3)) : Option StepResult :=
  match m.forward lg batch.1 batch.2.1 with
  | none => none
  | some (y_profile, y_counts) =>
    let ypLs := (y_profile.map List.flatten).map (logSoftmax lse)
    let yFlat := batch.2.2.map List.flatten
    let profile_loss := meanQ (MNLLLoss nc ypLs yFlat)
    let count_loss := meanQ (log1pMSELoss lg y_counts (yFlat.map (fun v => [v.sum])))
    let loss := profile_loss + m.alpha * count_loss
    match valid with
    | none => none
    | some (Xv, Xvctl, yv) =>
      match m.predict lg Xv Xvctl 64 with
      | none => none
      | some (ypv, ycv) =>
        let ypvN := ypv.map (fun ex =>
          splitLens (ex.map List.length) (logSoftmax lse ex.flatten))
        let ms := perf ypvN yv ycv
        let valid_loss := meanQ ms.profile_mnll + m.alpha * meanQ ms.count_mse
        some { loss := loss
               validated := some (ms, valid_loss)
               savedBest := false
               state := { st with iteration := st.iteration + 1 } }

/-- The identity function on rationals, used to instantiate the abstract
real-valued `torch.log` in concrete evaluations. -/
def cid : ℚ → ℚ := fun q => q

/-- A concrete interpretation of the log-sum-exp used by `log_softmax`. -/
def clse : Tensor1 → ℚ := fun _ => 0

/-- A concrete interpretation of the multinomial normalizing constant. -/
def cnc : ℚ → ℚ := fun _ => 0

/-- A concrete interpretation of `calculate_performance_measures`: every
validation tick reports `profile_mnll = [2]` and `count_mse = [3]`, so the
validation loss evaluates to `2 + alpha * 3`. -/
def cperf : Tensor3 → Tensor3 → Tensor2 → Measures :=
  fun _ _ _ => { profile_mnll := [2], profile_pearson := [0],
                 count_pearson := [0], count_mse := [3] }

/-- A minimal concrete configuration: one filter, no residual layers, one
output strand, no control tracks, `trimming = 1`, all weights zero. -/
def cArgs : InitArgs :=
  { n_filters := 1, n_layers := 0, n_outputs := 1, n_control_tracks := 0,
    alpha := 1, profile_output_bias := true, count_output_bias := true,
    trimming := some 1,
    iconvW := [List.replicate 4 (List.replicate 21 0)], iconvB := [0],
    rconvW := fun _ => [], rconvB := fun _ => [],
    fconvW := [[List.replicate 75 0]], fconvB := [0],
    linearW := [[0]], linearB := [0] }

/-- A one-example batch of one-hot width 4 and length 3 (all zeros). -/
def cX : Tensor3 := [List.replicate 4 [0, 0, 0]]

/-- A one-example target of shape `(1, 1, 1)`. -/
def cy : Tensor3 := [[[5]]]

/-- A concrete training batch `(X, no control, y)`. -/
def cBatch : Tensor3 × Option Tensor3 × Tensor3 := (cX, none, cy)

/-- A concrete validation set `(X_valid, no control, y_valid)`. -/
def cValid : Tensor3 × Option Tensor3 × Tensor3 := (cX, none, [[[1]]])

/-- A training state at iteration 1 (not a multiple of any cadence > 1). -/
def cState : TrainState := { iteration := 1, bestLoss := 100, earlyStopCount := 0 }

/-- A training state at iteration 5 with best loss 100. -/
def cState6 : TrainState := { iteration := 5, bestLoss := 100, earlyStopCount := 0 }

/-- The `cArgs` configuration with one dilated residual layer. -/
def cArgs4 : InitArgs :=
  { cArgs with n_layers := 1, rconvW := fun _ => [[[0, 0, 0]]], rconvB := fun _ => [0] }

/-- The `cArgs` configuration with `trimming = 12` (below the count-head
window offset 37). -/
def cArgs10 : InitArgs := { cArgs with trimming := some 12 }

/-- A one-example batch of one-hot width 4 and length 25 (all zeros). -/
def cX10 : Tensor3 := [List.replicate 4 (List.replicate 25 0)]

/-- A default `Conv1d` used only as the fallback of `List.getD`. -/
def dConv : Conv1d :=
  { inChannels := 0, outChannels := 0, kernelSize := 0, padding := 0,
    dilation := 0, weight := [], bias := [] }

/-- A one-example control tensor with one strand of length 3. -/
def cCtl : Tensor3 := [[[0, 0, 0]]]

lemma mapConstReplicate (l : List α) (b : β) :
    l.map (fun _ => b) = List.replicate l.length b := by
  induction l with
  | nil => rfl
  | cons a t ih => simp [List.replicate_succ, ih]

lemma shape_len {x : Tensor2} {n L : ℕ} (h : x.map List.length = List.replicate n L) :
    x.length = n := by
  have := congrArg List.length h
  simpa using this

lemma shape_head {x : Tensor2} {n L : ℕ} (hn : 0 < n)
    (h : x.map List.length = List.replicate n L) : (x.getD 0 []).length = L := by
  cases x with
  | nil =>
    have : (0 : ℕ) = n := by simpa using congrArg List.length h
    omega
  | cons r t =>
    cases n with
    | zero => omega
    | succ m =>
      rw [List.replicate_succ] at h
      simp only [List.map_cons, List.cons.injEq] at h
      simpa using h.1

lemma shape_mem {x : Tensor2} {n L : ℕ} (h : x.map List.length = List.replicate n L) :
    ∀ r ∈ x, r.length = L := by
  intro r hr
  have : r.length ∈ List.replicate n L := h ▸ List.mem_map_of_mem List.length hr
  exact List.eq_of_mem_replicate this

lemma conv_forward_shape (c : Conv1d) (x : Tensor2) (L : ℕ) (h0 : 0 < c.inChannels)
    (hx : x.map List.length = List.replicate c.inChannels L) :
    ∃ y, c.forward x = some y ∧
      y.map List.length = List.replicate c.outChannels (convOutLen c L) := by
  have hlen : x.length = c.inChannels := shape_len hx
  have hhd : (x.getD 0 []).length = L := shape_head h0 hx
  refine ⟨(List.range c.outChannels).map (fun co =>
      (List.range (convOutLen c L)).map (fun j => convEntry c x co j)), ?_, ?_⟩
  · rw [Conv1d.forward, if_pos hlen, hhd]
  · rw [List.map_map]
    have hc : (List.length ∘ fun co =>
        (List.range (convOutLen c L)).map (fun j => convEntry c x co j))
        = fun _ => convOutLen c L := by
      funext co
      simp
    rw [hc, mapConstReplicate, List.length_range]

lemma relu2_shape (x : Tensor2) : (relu2 x).map List.length = x.map List.length := by
  simp [relu2, relu1, List.map_map, Function.comp]

lemma add2_shape {L : ℕ} : ∀ (n : ℕ) (a b : Tensor2),
    a.map List.length = List.replicate n L → b.map List.length = List.replicate n L →
    (add2 a b).map List.length = List.replicate n L := by
  intro n
  induction n with
  | zero =>
    intro a b ha _
    have ha0 : a = [] := by
      have := congrArg List.length ha
      simpa using List.eq_nil_of_length_eq_zero (by simpa using this)
    subst ha0
    simp [add2]
  | succ m ih =>
    intro a b ha hb
    cases a with
    | nil => simp [List.replicate_succ] at ha
    | cons ra ta =>
      cases b with
      | nil => simp [List.replicate_succ] at hb
      | cons rb tb =>
        rw [List.replicate_succ] at ha hb
        simp only [List.map_cons, List.cons.injEq] at ha hb
        have hz : (List.zipWith (· + ·) ra rb).length = L := by
          rw [List.length_zipWith, ha.1, hb.1, min_self]
        simp [add2, List.replicate_succ, hz]
        exact ih ta tb ha.2 hb.2

lemma resBlock_shape {n L : ℕ} (c : Conv1d) (x : Tensor2) (hin : c.inChannels = n)
    (hout : c.outChannels = n) (hcl : convOutLen c L = L) (hn : 0 < n)
    (hx : x.map List.length = List.replicate n L) :
    ∃ y, resBlock c x = some y ∧ y.map List.length = List.replicate n L := by
  obtain ⟨z, hz, hzs⟩ := conv_forward_shape c x L (by omega) (by rw [hin]; exact hx)
  refine ⟨add2 x (relu2 z), ?_, ?_⟩
  · simp [resBlock, hz]
  · have hrs : (relu2 z).map List.length = List.replicate n L := by
      rw [relu2_shape, hzs, hout, hcl]
    exact add2_shape n x (relu2 z) hx hrs

lemma resStack_shape {n L : ℕ} : ∀ (cs : List Conv1d) (x : Tensor2),
    (∀ c ∈ cs, c.inChannels = n ∧ c.outChannels = n ∧ convOutLen c L = L) → 0 < n →
    x.map List.length = List.replicate n L →
    ∃ y, resStack cs x = some y ∧ y.map List.length = List.replicate n L := by
  intro cs
  induction cs with
  | nil =>
    intro x _ _ hx
    exact ⟨x, rfl, hx⟩
  | cons c cs ih =>
    intro x hall hn hx
    obtain ⟨h1, h2, h3⟩ := hall c (by simp)
    obtain ⟨y, hy, hys⟩ := resBlock_shape c x h1 h2 h3 hn hx
    obtain ⟨z, hz, hzs⟩ := ih y (fun d hd => hall d (by simp [hd])) hn hys
    exact ⟨z, by simp [resStack, hy, hz], hzs⟩

lemma rconv_props (a : InitArgs) (L : ℕ) :
    ∀ c ∈ (BPNet.init a).rconvs,
      c.inChannels = a.n_filters ∧ c.outChannels = a.n_filters ∧ convOutLen c L = L := by
  intro c hc
  simp only [BPNet.init, List.mem_map, List.mem_range] at hc
  obtain ⟨i, _, rfl⟩ := hc
  refine ⟨rfl, rfl, ?_⟩
  simp only [convOutLen, rconvDef]
  generalize (2 : ℕ) ^ (i + 1) = p
  omega

lemma pySlice_nat (s e : ℕ) (l : List α) :
    pySlice (s : ℤ) (e : ℤ) l = (l.drop s).take (e - s) := by
  unfold pySlice
  have h1 : ¬((s : ℤ) < 0) := by omega
  have h2 : ¬((e : ℤ) < 0) := by omega
  simp only [h1, h2, if_false, if_neg]
  have hs : (min (s : ℤ) (l.length : ℤ)).toNat = min s l.length := by
    rw [← Nat.cast_min]
    exact Int.toNat_natCast _
  have hd : (min (e : ℤ) (l.length : ℤ) - min (s : ℤ) (l.length : ℤ)).toNat
      = min e l.length - min s l.length := by
    rw [← Nat.cast_min, ← Nat.cast_min]
    exact Int.toNat_sub _ _
  rw [hs, hd]
  rcases le_total s l.length with h | h
  · rw [min_eq_left h]
    rcases le_total e l.length with h3 | h3
    · rw [min_eq_left h3]
    · rw [min_eq_right h3]
      have e1 : (l.drop s).take (l.length - s) = l.drop s :=
        List.take_of_length_le (by rw [List.length_drop])
      have e2 : (l.drop s).take (e - s) = l.drop s :=
        List.take_of_length_le (by rw [List.length_drop]; omega)
      rw [e1, e2]
  · rw [min_eq_right h, List.drop_eq_nil_of_le (le_refl _), List.drop_eq_nil_of_le h]
    simp

lemma pySlice_trim_len (t L : ℕ) (row : List ℚ) (hrow : row.length = L) (ht : 2 * t < L) :
    (pySlice ((t : ℕ) : ℤ) ((L : ℤ) - ((t : ℕ) : ℤ)) row).length = L - 2 * t := by
  have hcast : (L : ℤ) - ((t : ℕ) : ℤ) = (((L - t : ℕ) : ℕ) : ℤ) := by
    have : t ≤ L := by omega
    omega
  rw [hcast, pySlice_nat]
  rw [List.length_take, List.length_drop, hrow]
  omega

lemma countWindow_neg (t L : ℕ) (row : Tensor1) (hrow : row.length = L)
    (ht : t < 37) (htL : t ≤ L) (hL : 37 ≤ L + t) :
    countWindow t L row = row.drop (L + t - 37) := by
  have h1 : (t : ℤ) - 37 < 0 := by omega
  have h2 : ¬((L : ℤ) - (t : ℤ) + 37 < 0) := by omega
  simp only [countWindow, pySlice, hrow, if_pos h1, if_neg h2]
  have hs : ((0 : ℤ) ⊔ ((L : ℤ) + ((t : ℤ) - 37))).toNat = L + t - 37 := by omega
  have he : ((L : ℤ) - (t : ℤ) + 37) ⊓ (L : ℤ) = (L : ℤ) := by omega
  rw [he, hs]
  have hd : ((L : ℤ) - ((0 : ℤ) ⊔ ((L : ℤ) + ((t : ℤ) - 37)))).toNat = 37 - t := by omega
  rw [hd]
  refine List.take_of_length_le ?_
  rw [List.length_drop, hrow]
  omega

lemma seqMap_length {f : α → Option β} :
    ∀ {l : List α} {Y : List β}, seqMap f l = some Y → Y.length = l.length := by
  intro l
  induction l with
  | nil =>
    intro Y h
    simp only [seqMap] at h
    cases h
    rfl
  | cons a t ih =>
    intro Y h
    simp only [seqMap] at h
    cases hfa : f a with
    | none => rw [hfa] at h; simp at h
    | some b =>
      rw [hfa] at h
      cases hseq : seqMap f t with
      | none => rw [hseq] at h; simp at h
      | some Z =>
        rw [hseq] at h
        simp only [Option.some.injEq] at h
        subst h
        simp [ih hseq]

lemma seqMap_proj {f : α → Option β} {proj : β → γ} {c : γ} :
    ∀ (XS : List α), (∀ x ∈ XS, (f x).map proj = some c) →
    (seqMap f XS).map (fun Y => Y.map proj) = some (List.replicate XS.length c) := by
  intro XS
  induction XS with
  | nil => intro _; rfl
  | cons a t ih =>
    intro h
    have ha := h a (by simp)
    cases hfa : f a with
    | none => rw [hfa] at ha; simp at ha
    | some b =>
      rw [hfa] at ha
      simp only [Option.map_some', Option.some.injEq] at ha
      have ht := ih (fun x hx => h x (by simp [hx]))
      cases hseq : seqMap f t with
      | none => rw [hseq] at ht; simp at ht
      | some Y =>
        rw [hseq] at ht
        simp only [Option.map_some', Option.some.injEq] at ht
        simp [seqMap, hfa, hseq, List.replicate_succ, ha, ht]

lemma seqMap_congr {f g : α → Option β} :
    ∀ {l : List α}, (∀ a ∈ l, f a = g a) → seqMap f l = seqMap g l := by
  intro l
  induction l with
  | nil => intro _; rfl
  | cons a t ih =>
    intro h
    simp only [seqMap]
    rw [h a (by simp), ih (fun x hx => h x (by simp [hx]))]

lemma seqMap_map_opt {h : α → Option γ} {g : γ → δ} :
    ∀ (l : List α),
    seqMap (fun a => (h a).map g) l = (seqMap h l).map (List.map g) := by
  intro l
  induction l with
  | nil => rfl
  | cons a t ih =>
    simp only [seqMap, ih]
    cases h a <;> cases hseq : seqMap h t <;> simp

lemma seqMap_comp_map {g : α → β} {f : β → Option γ} :
    ∀ (l : List α), seqMap f (l.map g) = seqMap (fun a => f (g a)) l := by
  intro l
  induction l with
  | nil => rfl
  | cons a t ih => simp only [List.map_cons, seqMap, ih]

lemma seqMap_append {f : α → Option β} :
    ∀ (l1 l2 : List α),
    seqMap f (l1 ++ l2)
      = (seqMap f l1).bind (fun a => (seqMap f l2).map (fun b => a ++ b)) := by
  intro l1 l2
  induction l1 with
  | nil =>
    simp only [List.nil_append, seqMap, Option.some_bind]
    cases seqMap f l2 <;> simp
  | cons a t ih =>
    rw [List.cons_append]
    show (match f a, seqMap f (t ++ l2) with
          | some b, some bl => some (b :: bl)
          | _, _ => none)
        = ((match f a, seqMap f t with
            | some b, some bl => some (b :: bl)
            | _, _ => none).bind (fun a => (seqMap f l2).map (fun b => a ++ b)))
    rw [ih]
    cases f a <;> cases seqMap f t <;> cases seqMap f l2 <;> simp

lemma ceil_mul_ge (N bs : ℕ) (hbs : 0 < bs) : N ≤ ((N + bs - 1) / bs) * bs := by
  have h1 := Nat.div_add_mod (N + bs - 1) bs
  have h2 : (N + bs - 1) % bs < bs := Nat.mod_lt _ hbs
  rw [Nat.mul_comm]
  generalize hq : bs * ((N + bs - 1) / bs) = q at h1 ⊢
  omega

lemma ceil_pos (N bs : ℕ) (hbs : 0 < bs) (hN : 0 < N) : 0 < (N + bs - 1) / bs := by
  have h : 1 ≤ (N + bs - 1) / bs := (Nat.le_div_iff_mul_le hbs).mpr (by omega)
  omega

lemma zip_drop {α β : Type _} : ∀ (n : ℕ) (A : List α) (B : List β),
    (A.drop n).zip (B.drop n) = (A.zip B).drop n := by
  intro n
  induction n with
  | zero => simp
  | succ m ih =>
    intro A B
    cases A with
    | nil => simp
    | cons a A =>
      cases B with
      | nil => simp
      | cons b B => simpa using ih A B

lemma zip_take {α β : Type _} : ∀ (n : ℕ) (A : List α) (B : List β),
    (A.take n).zip (B.take n) = (A.zip B).take n := by
  intro n
  induction n with
  | zero => simp
  | succ m ih =>
    intro A B
    cases A with
    | nil => simp
    | cons a A =>
      cases B with
      | nil => simp
      | cons b B => simpa using ih A B

lemma flatten_chunks (bs : ℕ) :
    ∀ (k : ℕ) (l : List α),
    ((List.range k).map (fun i => (l.drop (i * bs)).take bs)).flatten = l.take (k * bs) := by
  intro k
  induction k with
  | zero => intro l; simp
  | succ m ih =>
    intro l
    rw [List.range_succ_eq_map, List.map_cons, List.map_map, List.flatten_cons]
    have hcomp : ((fun i => (l.drop (i * bs)).take bs) ∘ Nat.succ)
        = fun i => ((l.drop bs).drop (i * bs)).take bs := by
      funext i
      simp only [Function.comp]
      rw [List.drop_drop, Nat.succ_mul, Nat.add_comm]
    rw [hcomp, ih (l.drop bs), Nat.succ_mul, Nat.add_comm (m * bs) bs, List.take_add]
    simp

lemma seqMap_chunks {f : α → Option β} (bs : ℕ) :
    ∀ (k : ℕ) (Z : List α), Z.length ≤ k * bs →
    seqMap (fun i => seqMap f ((Z.drop (i * bs)).take bs)) (List.range k)
      = (seqMap f Z).map (fun Y => (List.range k).map (fun i => (Y.drop (i * bs)).take bs)) := by
  intro k
  induction k with
  | zero =>
    intro Z hZ
    have hz : Z = [] := List.eq_nil_of_length_eq_zero (by omega)
    subst hz
    simp [seqMap]
  | succ m ih =>
    intro Z hZ
    rw [List.range_succ_eq_map]
    have hsplit : Z = Z.take bs ++ Z.drop bs := (List.take_append_drop bs Z).symm
    have hlen2 : (Z.drop bs).length ≤ m * bs := by
      rw [List.length_drop]
      rw [Nat.succ_mul] at hZ
      generalize hq : m * bs = q at hZ ⊢
      omega
    have hinner :
        seqMap (fun i => seqMap f ((Z.drop (i * bs)).take bs)) ((List.range m).map Nat.succ)
          = (seqMap f (Z.drop bs)).map
              (fun Y => (List.range m).map (fun i => (Y.drop (i * bs)).take bs)) := by
      rw [seqMap_comp_map]
      have hptw : ∀ i, ((Z.drop (Nat.succ i * bs)).take bs)
          = (((Z.drop bs).drop (i * bs)).take bs) := by
        intro i
        rw [List.drop_drop, Nat.succ_mul, Nat.add_comm]
      rw [seqMap_congr (fun i _ => by rw [hptw i])]
      exact ih (Z.drop bs) hlen2
    rw [seqMap]
    rw [hinner]
    conv_rhs => rw [hsplit]
    rw [seqMap_append]
    cases hA : seqMap f (Z.take bs) with
    | none => simp [hA]
    | some Ya =>
      cases hB : seqMap f (Z.drop bs) with
      | none => simp [hA, hB]
      | some Yb =>
        simp only [Option.map_some', Option.some_bind]
        have hYa : Ya.length = (Z.take bs).length := seqMap_length hA
        have hYb : Yb.length = (Z.drop bs).length := seqMap_length hB
        have hchunk0 : ((Ya ++ Yb).drop (0 * bs)).take bs = Ya := by
          rw [Nat.zero_mul, List.drop_zero, List.take_append_eq_append_take]
          rcases le_total bs Z.length with hc | hc
          · have : Ya.length = bs := by rw [hYa, List.length_take]; omega
            rw [List.take_of_length_le (by omega), this, Nat.sub_self]
            simp
          · have hYb0 : Yb = [] := by
              have : Yb.length = 0 := by rw [hYb, List.length_drop]; omega
              exact List.eq_nil_of_length_eq_zero this
            rw [hYb0, List.take_of_length_le (by rw [hYa, List.length_take]; omega)]
            simp
        have hchunkS : ∀ i, ((Ya ++ Yb).drop (Nat.succ i * bs)).take bs
            = ((Yb.drop (i * bs)).take bs) := by
          intro i
          rw [List.drop_append_eq_append_drop]
          rcases le_total bs Z.length with hc | hc
          · have hYal : Ya.length = bs := by rw [hYa, List.length_take]; omega
            have hd1 : Ya.drop (Nat.succ i * bs) = [] :=
              List.drop_eq_nil_of_le (by rw [hYal, Nat.succ_mul]; omega)
            rw [hd1, hYal, Nat.succ_mul, Nat.add_sub_cancel]
            simp
          · have hYb0 : Yb = [] := by
              have : Yb.length = 0 := by rw [hYb, List.length_drop]; omega
              exact List.eq_nil_of_length_eq_zero this
            have hYal : Ya.length ≤ bs := by rw [hYa, List.length_take]; omega
            have hd1 : Ya.drop (Nat.succ i * bs) = [] :=
              List.drop_eq_nil_of_le (by rw [Nat.succ_mul]; omega)
            rw [hYb0, hd1]
            simp
        rw [List.map_cons, List.map_map]
        rw [hchunk0]
        have : ((fun i => ((Ya ++ Yb).drop (i * bs)).take bs) ∘ Nat.succ)
            = fun i => (Yb.drop (i * bs)).take bs := by
          funext i
          exact hchunkS i
        rw [this]
        simp [hA]

lemma init_iconv_outLen (a : InitArgs) (L : ℕ) : convOutLen (BPNet.init a).iconv L = L := by
  show L + 2 * 10 - 1 * (21 - 1) = L
  omega

lemma init_fconv_outLen (a : InitArgs) (L : ℕ) : convOutLen (BPNet.init a).fconv L = L := by
  show L + 2 * 37 - 1 * (75 - 1) = L
  omega

lemma forwardEx_shape (a : InitArgs) (lg : ℚ → ℚ) (x : Tensor2) (xctl : Option Tensor2)
    (L : ℕ) (hnf : 0 < a.n_filters)
    (hx : x.map List.length = List.replicate 4 L)
    (hctl : match xctl with
            | none => a.n_control_tracks = 0
            | some c => 0 < a.n_control_tracks ∧
                c.map List.length = List.replicate a.n_control_tracks L)
    (ht : 2 * (BPNet.init a).trimming < L) :
    ((BPNet.init a).forwardEx lg x xctl).map (fun r => r.1.map List.length)
      = some (List.replicate a.n_outputs (L - 2 * (BPNet.init a).trimming)) := by
  have hxl : (x.getD 0 []).length = L := shape_head (by omega) hx
  obtain ⟨X0, hX0, hX0s⟩ :=
    conv_forward_shape (BPNet.init a).iconv x L (by show (0 : ℕ) < 4; omega) hx
  rw [init_iconv_outLen] at hX0s
  have hr0 : (relu2 X0).map List.length = List.replicate a.n_filters L := by
    rw [relu2_shape]
    exact hX0s
  obtain ⟨X2, hX2, hX2s⟩ :=
    resStack_shape (BPNet.init a).rconvs (relu2 X0) (rconv_props a L) hnf hr0
  have hX2len : X2.length = a.n_filters := shape_len hX2s
  cases xctl with
  | none =>
    have hnc : a.n_control_tracks = 0 := hctl
    have hXws : X2.map List.length
        = List.replicate (BPNet.init a).fconv.inChannels L := by
      show X2.map List.length = List.replicate (a.n_filters + a.n_control_tracks) L
      rw [hnc, Nat.add_zero]
      exact hX2s
    obtain ⟨yp, hyp, hyps⟩ :=
      conv_forward_shape (BPNet.init a).fconv X2 L
        (by show 0 < a.n_filters + a.n_control_tracks; omega) hXws
    rw [init_fconv_outLen] at hyps
    have hyplen : yp.length = a.n_outputs := shape_len hyps
    have hypmem : ∀ r ∈ yp, r.length = L := shape_mem hyps
    have hlinif : (X2.map (fun row =>
        meanQ (countWindow (BPNet.init a).trimming L row))).length
        = (BPNet.init a).linear.inFeatures := by
      rw [List.length_map, hX2len]
      show a.n_filters = a.n_filters + (if 0 < a.n_control_tracks then 1 else 0)
      rw [hnc]
      simp
    simp only [BPNet.forwardEx, hxl, hX0, hX2, hyp, Linear.forward, if_pos hlinif,
      Option.map_some']
    rw [Option.some.injEq, List.map_map]
    have hmc : ∀ r ∈ yp,
        (List.length ∘ fun row =>
          pySlice ((BPNet.init a).trimming : ℤ)
            ((L : ℤ) - ((BPNet.init a).trimming : ℤ)) row) r
        = L - 2 * (BPNet.init a).trimming := by
      intro r hr
      exact pySlice_trim_len (BPNet.init a).trimming L r (hypmem r hr) ht
    rw [List.map_congr_left hmc, mapConstReplicate, hyplen]
  | some c =>
    obtain ⟨hncpos, hcs⟩ := hctl
    have hXws : (X2 ++ c).map List.length
        = List.replicate (BPNet.init a).fconv.inChannels L := by
      show (X2 ++ c).map List.length = List.replicate (a.n_filters + a.n_control_tracks) L
      rw [List.map_append, hX2s, hcs, List.replicate_add]
    obtain ⟨yp, hyp, hyps⟩ :=
      conv_forward_shape (BPNet.init a).fconv (X2 ++ c) L
        (by show 0 < a.n_filters + a.n_control_tracks; omega) hXws
    rw [init_fconv_outLen] at hyps
    have hyplen : yp.length = a.n_outputs := shape_len hyps
    have hypmem : ∀ r ∈ yp, r.length = L := shape_mem hyps
    have hlinif : ((X2.map (fun row =>
        meanQ (countWindow (BPNet.init a).trimming L row)))
        ++ [lg ((c.map (fun row =>
              (countWindow (BPNet.init a).trimming L row).sum)).sum + 1)]).length
        = (BPNet.init a).linear.inFeatures := by
      rw [List.length_append, List.length_map, hX2len]
      show a.n_filters + 1 = a.n_filters + (if 0 < a.n_control_tracks then 1 else 0)
      rw [if_pos hncpos]
    simp only [BPNet.forwardEx, hxl, hX0, hX2, hyp, Linear.forward, if_pos hlinif,
      Option.map_some']
    rw [Option.some.injEq, List.map_map]
    have hmc : ∀ r ∈ yp,
        (List.length ∘ fun row =>
          pySlice ((BPNet.init a).trimming : ℤ)
            ((L : ℤ) - ((BPNet.init a).trimming : ℤ)) row) r
        = L - 2 * (BPNet.init a).trimming := by
      intro r hr
      exact pySlice_trim_len (BPNet.init a).trimming L r (hypmem r hr) ht
    rw [List.map_congr_left hmc, mapConstReplicate, hyplen]

lemma forward_shape (a : InitArgs) (lg : ℚ → ℚ) (X : Tensor3) (Xctl : Option Tensor3)
    (L : ℕ) (hnf : 0 < a.n_filters)
    (hX : ∀ x ∈ X, x.map List.length = List.replicate 4 L)
    (hctl : match Xctl with
            | none => a.n_control_tracks = 0
            | some C => 0 < a.n_control_tracks ∧ C.length = X.length ∧
                ∀ c ∈ C, c.map List.length = List.replicate a.n_control_tracks L)
    (ht : 2 * (BPNet.init a).trimming < L) :
    ((BPNet.init a).forward lg X Xctl).map
        (fun p => (p.1.map (fun pr => pr.map List.length), p.2.map List.length))
      = some
          (List.replicate X.length
            (List.replicate a.n_outputs (L - 2 * (BPNet.init a).trimming)),
           List.replicate X.length 1) := by
  cases Xctl with
  | none =>
    have hper : ∀ x ∈ X, ((BPNet.init a).forwardEx lg x none).map
        (fun r => r.1.map List.length)
        = some (List.replicate a.n_outputs (L - 2 * (BPNet.init a).trimming)) :=
      fun x hx => forwardEx_shape a lg x none L hnf (hX x hx) hctl ht
    have hproj := seqMap_proj X hper
    cases hsq : seqMap (fun x => (BPNet.init a).forwardEx lg x none) X with
    | none => rw [hsq] at hproj; simp at hproj
    | some rs =>
      rw [hsq] at hproj
      simp only [Option.map_some', Option.some.injEq] at hproj
      have hlen : rs.length = X.length := seqMap_length hsq
      simp only [BPNet.forward, hsq, Option.map_some', Option.some.injEq]
      rw [Prod.mk.injEq]
      constructor
      · rw [List.map_map]
        exact hproj
      · rw [List.map_map]
        have : (List.length ∘ fun r : Tensor2 × ℚ => [r.2]) = fun _ => 1 := by
          funext r
          simp
        rw [this, mapConstReplicate, hlen]
  | some C =>
    obtain ⟨hpos, hCl, hCs⟩ := hctl
    have hper : ∀ p ∈ X.zip C, ((BPNet.init a).forwardEx lg p.1 (some p.2)).map
        (fun r => r.1.map List.length)
        = some (List.replicate a.n_outputs (L - 2 * (BPNet.init a).trimming)) := by
      intro p hp
      obtain ⟨h1, h2⟩ := List.of_mem_zip hp
      exact forwardEx_shape a lg p.1 (some p.2) L hnf (hX p.1 h1) ⟨hpos, hCs p.2 h2⟩ ht
    have hproj := seqMap_proj (X.zip C) hper
    have hzlen : (X.zip C).length = X.length := by
      rw [List.length_zip X C, hCl, min_self]
    cases hsq : seqMap (fun p : Tensor2 × Tensor2 =>
        (BPNet.init a).forwardEx lg p.1 (some p.2)) (X.zip C) with
    | none => rw [hsq] at hproj; simp at hproj
    | some rs =>
      rw [hsq] at hproj
      simp only [Option.map_some', Option.some.injEq] at hproj
      have hlen : rs.length = X.length := by
        rw [seqMap_length hsq, hzlen]
      simp only [BPNet.forward, if_pos hCl.symm, hsq, Option.map_some',
        Option.some.injEq]
      rw [Prod.mk.injEq]
      constructor
      · rw [List.map_map]
        show List.map (fun r : Tensor2 × ℚ => r.1.map List.length) rs = _
        rw [hproj, hzlen]
      · rw [List.map_map]
        have : (List.length ∘ fun r : Tensor2 × ℚ => [r.2]) = fun _ => 1 := by
          funext r
          simp
        rw [this, mapConstReplicate, hlen]


lemma chunk_slice (l : Tensor3) (i bs : ℕ) :
    pySlice ((i * bs : ℕ) : ℤ) ((i * bs + bs : ℕ) : ℤ) l = (l.drop (i * bs)).take bs := by
  rw [pySlice_nat]
  congr 1
  omega

lemma cat_chunks {γ : Type _} (k bs : ℕ) (Y : List γ) (hk0 : 0 < k)
    (hkY : Y.length ≤ k * bs) :
    torchCat ((List.range k).map (fun i => (Y.drop (i * bs)).take bs)) = some Y := by
  have hne2 : ((List.range k).map (fun i => (Y.drop (i * bs)).take bs)) ≠ [] := by
    intro h
    have hlen := congrArg List.length h
    simp only [List.length_map, List.length_range, List.length_nil] at hlen
    omega
  rw [torchCat, if_neg (by simpa using hne2)]
  rw [flatten_chunks, List.take_of_length_le hkY]

lemma predict_eq_forward (m : BPNet) (lg : ℚ → ℚ) (X : Tensor3) (Xctl : Option Tensor3)
    (bs : ℕ) (hbs : 0 < bs) (hne : X ≠ [])
    (hctl : ∀ C, Xctl = some C → C.length = X.length) :
    m.predict lg X Xctl bs = m.forward lg X Xctl := by
  have hXpos : 0 < X.length := List.length_pos.mpr hne
  have hk1 : X.length ≤ ((X.length + bs - 1) / bs) * bs := ceil_mul_ge X.length bs hbs
  have hk0 : 0 < (X.length + bs - 1) / bs := ceil_pos X.length bs hbs hXpos
  cases Xctl with
  | none =>
    simp only [BPNet.predict, Option.map_none']
    have h1 : seqMap (fun i => m.forward lg
          (pySlice ((i * bs : ℕ) : ℤ) ((i * bs + bs : ℕ) : ℤ) X) none)
          (List.range ((X.length + bs - 1) / bs))
        = seqMap (fun i =>
            (seqMap (fun x => m.forwardEx lg x none) ((X.drop (i * bs)).take bs)).map
              (fun rs => (rs.map Prod.fst, rs.map (fun r => [r.2]))))
          (List.range ((X.length + bs - 1) / bs)) :=
      seqMap_congr (fun i _ => by rw [chunk_slice X i bs]; rfl)
    have h2 : seqMap (fun i =>
            (seqMap (fun x => m.forwardEx lg x none) ((X.drop (i * bs)).take bs)).map
              (fun rs => (rs.map Prod.fst, rs.map (fun r => [r.2]))))
          (List.range ((X.length + bs - 1) / bs))
        = (seqMap (fun i => seqMap (fun x => m.forwardEx lg x none)
              ((X.drop (i * bs)).take bs))
            (List.range ((X.length + bs - 1) / bs))).map
            (List.map (fun rs => (rs.map Prod.fst, rs.map (fun r => [r.2])))) :=
      seqMap_map_opt _
    have h3 : seqMap (fun i => seqMap (fun x => m.forwardEx lg x none)
          ((X.drop (i * bs)).take bs)) (List.range ((X.length + bs - 1) / bs))
        = (seqMap (fun x => m.forwardEx lg x none) X).map
            (fun Y => (List.range ((X.length + bs - 1) / bs)).map
              (fun i => (Y.drop (i * bs)).take bs)) :=
      seqMap_chunks bs _ X hk1
    have hRHS : m.forward lg X (none : Option Tensor3)
        = (seqMap (fun x => m.forwardEx lg x none) X).map
            (fun rs => (rs.map Prod.fst, rs.map (fun r => [r.2]))) := rfl
    rw [h1, h2, h3, hRHS]
    cases hY : seqMap (fun x => m.forwardEx lg x none) X with
    | none => simp
    | some Y =>
      have hYlen : Y.length = X.length := seqMap_length hY
      simp only [Option.map_some']
      have hA : List.map Prod.fst
          (List.map (fun rs : List (Tensor2 × ℚ) => (rs.map Prod.fst, rs.map (fun r => [r.2])))
            ((List.range ((X.length + bs - 1) / bs)).map
              (fun i => (Y.drop (i * bs)).take bs)))
          = (List.range ((X.length + bs - 1) / bs)).map
              (fun i => ((Y.map Prod.fst).drop (i * bs)).take bs) := by
        rw [List.map_map, List.map_map]
        apply List.map_congr_left
        intro i _
        show ((Y.drop (i * bs)).take bs).map Prod.fst = _
        rw [List.map_take, List.map_drop]
      have hB : List.map Prod.snd
          (List.map (fun rs : List (Tensor2 × ℚ) => (rs.map Prod.fst, rs.map (fun r => [r.2])))
            ((List.range ((X.length + bs - 1) / bs)).map
              (fun i => (Y.drop (i * bs)).take bs)))
          = (List.range ((X.length + bs - 1) / bs)).map
              (fun i => ((Y.map (fun r : Tensor2 × ℚ => [r.2])).drop (i * bs)).take bs) := by
        rw [List.map_map, List.map_map]
        apply List.map_congr_left
        intro i _
        show ((Y.drop (i * bs)).take bs).map (fun r : Tensor2 × ℚ => [r.2]) = _
        rw [List.map_take, List.map_drop]
      rw [hA, hB]
      rw [cat_chunks _ bs (Y.map Prod.fst) hk0 (by rw [List.length_map, hYlen]; exact hk1)]
      rw [cat_chunks _ bs (Y.map (fun r : Tensor2 × ℚ => [r.2])) hk0
        (by rw [List.length_map, hYlen]; exact hk1)]
  | some C =>
    have hCl : C.length = X.length := hctl C rfl
    have hzlen : (X.zip C).length = X.length := by
      rw [List.length_zip X C, hCl, min_self]
    simp only [BPNet.predict, Option.map_some']
    have h1 : seqMap (fun i => m.forward lg
          (pySlice ((i * bs : ℕ) : ℤ) ((i * bs + bs : ℕ) : ℤ) X)
          (some (pySlice ((i * bs : ℕ) : ℤ) ((i * bs + bs : ℕ) : ℤ) C)))
          (List.range ((X.length + bs - 1) / bs))
        = seqMap (fun i =>
            (seqMap (fun p : Tensor2 × Tensor2 => m.forwardEx lg p.1 (some p.2))
              (((X.zip C).drop (i * bs)).take bs)).map
              (fun rs => (rs.map Prod.fst, rs.map (fun r => [r.2]))))
          (List.range ((X.length + bs - 1) / bs)) :=
      seqMap_congr (fun i _ => by
        rw [chunk_slice X i bs, chunk_slice C i bs]
        show (if ((X.drop (i * bs)).take bs).length = ((C.drop (i * bs)).take bs).length
            then (seqMap (fun p : Tensor2 × Tensor2 => m.forwardEx lg p.1 (some p.2))
                (((X.drop (i * bs)).take bs).zip ((C.drop (i * bs)).take bs))).map
                (fun rs => (rs.map Prod.fst, rs.map (fun r => [r.2])))
            else none) = _
        rw [if_pos (by
          rw [List.length_take, List.length_drop, List.length_take, List.length_drop, hCl])]
        rw [zip_take bs (X.drop (i * bs)) (C.drop (i * bs)), zip_drop (i * bs) X C])
    have h2 : seqMap (fun i =>
            (seqMap (fun p : Tensor2 × Tensor2 => m.forwardEx lg p.1 (some p.2))
              (((X.zip C).drop (i * bs)).take bs)).map
              (fun rs => (rs.map Prod.fst, rs.map (fun r => [r.2]))))
          (List.range ((X.length + bs - 1) / bs))
        = (seqMap (fun i =>
              seqMap (fun p : Tensor2 × Tensor2 => m.forwardEx lg p.1 (some p.2))
                (((X.zip C).drop (i * bs)).take bs))
            (List.range ((X.length + bs - 1) / bs))).map
            (List.map (fun rs => (rs.map Prod.fst, rs.map (fun r => [r.2])))) :=
      seqMap_map_opt _
    have h3 : seqMap (fun i =>
          seqMap (fun p : Tensor2 × Tensor2 => m.forwardEx lg p.1 (some p.2))
            (((X.zip C).drop (i * bs)).take bs)) (List.range ((X.length + bs - 1) / bs))
        = (seqMap (fun p : Tensor2 × Tensor2 => m.forwardEx lg p.1 (some p.2)) (X.zip C)).map
            (fun Y => (List.range ((X.length + bs - 1) / bs)).map
              (fun i => (Y.drop (i * bs)).take bs)) :=
      seqMap_chunks bs _ (X.zip C) (by rw [hzlen]; exact hk1)
    have hRHS : m.forward lg X (some C)
        = (seqMap (fun p : Tensor2 × Tensor2 => m.forwardEx lg p.1 (some p.2)) (X.zip C)).map
            (fun rs => (rs.map Prod.fst, rs.map (fun r => [r.2]))) := by
      show (if X.length = C.length
          then (seqMap (fun p : Tensor2 × Tensor2 => m.forwardEx lg p.1 (some p.2))
              (X.zip C)).map
              (fun rs => (rs.map Prod.fst, rs.map (fun r => [r.2])))
          else none) = _
      rw [if_pos hCl.symm]
    rw [h1, h2, h3, hRHS]
    cases hY : seqMap (fun p : Tensor2 × Tensor2 => m.forwardEx lg p.1 (some p.2)) (X.zip C) with
    | none => simp
    | some Y =>
      have hYlen : Y.length = X.length := by
        rw [seqMap_length hY, hzlen]
      simp only [Option.map_some']
      have hA : List.map Prod.fst
          (List.map (fun rs : List (Tensor2 × ℚ) => (rs.map Prod.fst, rs.map (fun r => [r.2])))
            ((List.range ((X.length + bs - 1) / bs)).map
              (fun i => (Y.drop (i * bs)).take bs)))
          = (List.range ((X.length + bs - 1) / bs)).map
              (fun i => ((Y.map Prod.fst).drop (i * bs)).take bs) := by
        rw [List.map_map, List.map_map]
        apply List.map_congr_left
        intro i _
        show ((Y.drop (i * bs)).take bs).map Prod.fst = _
        rw [List.map_take, List.map_drop]
      have hB : List.map Prod.snd
          (List.map (fun rs : List (Tensor2 × ℚ) => (rs.map Prod.fst, rs.map (fun r => [r.2])))
            ((List.range ((X.length + bs - 1) / bs)).map
              (fun i => (Y.drop (i * bs)).take bs)))
          = (List.range ((X.length + bs - 1) / bs)).map
              (fun i => ((Y.map (fun r : Tensor2 × ℚ => [r.2])).drop (i * bs)).take bs) := by
        rw [List.map_map, List.map_map]
        apply List.map_congr_left
        intro i _
        show ((Y.drop (i * bs)).take bs).map (fun r : Tensor2 × ℚ => [r.2]) = _
        rw [List.map_take, List.map_drop]
      rw [hA, hB]
      rw [cat_chunks _ bs (Y.map Prod.fst) hk0 (by rw [List.length_map, hYlen]; exact hk1)]
      rw [cat_chunks _ bs (Y.map (fun r : Tensor2 × ℚ => [r.2])) hk0
        (by rw [List.length_map, hYlen]; exact hk1)]

lemma forwardEx_ctl_mismatch (a : InitArgs) (lg : ℚ → ℚ) (x c : Tensor2) (L : ℕ)
    (hnf : 0 < a.n_filters) (hx : x.map List.length = List.replicate 4 L)
    (hnc : a.n_control_tracks = 0) (hcpos : 0 < c.length) :
    (BPNet.init a).forwardEx lg x (some c) = none := by
  obtain ⟨X0, hX0, hX0s⟩ :=
    conv_forward_shape (BPNet.init a).iconv x L (by show (0 : ℕ) < 4; omega) hx
  rw [init_iconv_outLen] at hX0s
  have hr0 : (relu2 X0).map List.length = List.replicate a.n_filters L := by
    rw [relu2_shape]
    exact hX0s
  obtain ⟨X2, hX2, hX2s⟩ :=
    resStack_shape (BPNet.init a).rconvs (relu2 X0) (rconv_props a L) hnf hr0
  have hch : ¬((X2 ++ c).length = (BPNet.init a).fconv.inChannels) := by
    rw [List.length_append, shape_len hX2s]
    show ¬(a.n_filters + c.length = a.n_filters + a.n_control_tracks)
    omega
  have hfail : (BPNet.init a).fconv.forward (X2 ++ c) = none := by
    rw [Conv1d.forward, if_neg hch]
  simp only [BPNet.forwardEx, hX0, hX2, hfail]

lemma forward_ctl_mismatch (a : InitArgs) (lg : ℚ → ℚ) (X C : Tensor3) (L : ℕ)
    (hnf : 0 < a.n_filters)
    (hX : ∀ x ∈ X, x.map List.length = List.replicate 4 L)
    (hnc : a.n_control_tracks = 0) (hCl : C.length = X.length) (hne : X ≠ [])
    (hCch : ∀ c ∈ C, 0 < c.length) :
    (BPNet.init a).forward lg X (some C) = none := by
  cases X with
  | nil => exact absurd rfl hne
  | cons x Xt =>
    cases C with
    | nil => simp at hCl
    | cons c Ct =>
      have h1 : (BPNet.init a).forwardEx lg x (some c) = none :=
        forwardEx_ctl_mismatch a lg x c L hnf (hX x (by simp)) hnc (hCch c (by simp))
      simp only [BPNet.forward, if_pos hCl.symm, List.zip_cons_cons]
      simp [seqMap, h1]

lemma forward_batch_len (m : BPNet) (lg : ℚ → ℚ) (X : Tensor3) (Xctl : Option Tensor3)
    (P : Tensor3) (Cc : Tensor2) (hf : m.forward lg X Xctl = some (P, Cc)) :
    P.length = X.length ∧ Cc.length = X.length := by
  cases Xctl with
  | none =>
    cases hs : seqMap (fun x => m.forwardEx lg x none) X with
    | none =>
      simp only [BPNet.forward, hs, Option.map_none'] at hf
      exact Option.noConfusion hf
    | some rs =>
      simp only [BPNet.forward, hs, Option.map_some', Option.some.injEq,
        Prod.mk.injEq] at hf
      obtain ⟨h1, h2⟩ := hf
      rw [← h1, ← h2, List.length_map, List.length_map, seqMap_length hs]
      exact ⟨rfl, rfl⟩
  | some C =>
    by_cases hcl : X.length = C.length
    · cases hs : seqMap (fun p : Tensor2 × Tensor2 => m.forwardEx lg p.1 (some p.2))
          (X.zip C) with
      | none =>
        simp only [BPNet.forward, if_pos hcl, hs, Option.map_none'] at hf
        exact Option.noConfusion hf
      | some rs =>
        simp only [BPNet.forward, if_pos hcl, hs, Option.map_some', Option.some.injEq,
          Prod.mk.injEq] at hf
        obtain ⟨h1, h2⟩ := hf
        have hz : (X.zip C).length = X.length := by
          rw [List.length_zip X C, ← hcl, min_self]
        rw [← h1, ← h2, List.length_map, List.length_map, seqMap_length hs, hz]
        exact ⟨rfl, rfl⟩
    · simp only [BPNet.forward, if_neg hcl] at hf
      exact Option.noConfusion hf

/-- C1: for every BPNet configuration (any constructor arguments with a
positive filter count) and every input `X` of shape `(batch, 4, L)` with
`L - 2*trimming > 0`, together with a control tensor of shape
`(batch, n_control_tracks, L)` exactly when `n_control_tracks > 0`,
`forward(X, X_ctl)` succeeds and returns a profile tensor of shape
`(batch, n_outputs, L - 2*trimming)` and a count tensor of shape
`(batch, 1)`. -/
theorem C1_forward_output_shapes (a : InitArgs) (lg : ℚ → ℚ) (X : Tensor3)
    (Xctl : Option Tensor3) (L : ℕ) (hnf : 0 < a.n_filters)
    (hX : ∀ x ∈ X, x.map List.length = List.replicate 4 L)
    (hctl : match Xctl with
            | none => a.n_control_tracks = 0
            | some C => 0 < a.n_control_tracks ∧ C.length = X.length ∧
                ∀ c ∈ C, c.map List.length = List.replicate a.n_control_tracks L)
    (ht : 2 * (BPNet.init a).trimming < L) :
    ((BPNet.init a).forward lg X Xctl).map
        (fun p => (p.1.map (fun pr => pr.map List.length), p.2.map List.length))
      = some (List.replicate X.length
            (List.replicate a.n_outputs (L - 2 * (BPNet.init a).trimming)),
          List.replicate X.length 1) :=
  forward_shape a lg X Xctl L hnf hX hctl ht

theorem C1_forward_output_shapes_witness :
    (0 < cArgs.n_filters ∧ 2 * (BPNet.init cArgs).trimming < 3)
    ∧ ((BPNet.init cArgs).forward cid cX none).map
        (fun p => (p.1.map (fun pr => pr.map List.length), p.2.map List.length))
      = some (List.replicate cX.length
            (List.replicate cArgs.n_outputs (3 - 2 * (BPNet.init cArgs).trimming)),
          List.replicate cX.length 1) :=
  ⟨⟨by decide, by decide⟩,
   C1_forward_output_shapes cArgs cid cX none 3 (by decide) (by decide) (by decide)
     (by decide)⟩

/-- C4: every dilated residual block of the tower (kernel-3 convolution
with dilation `2^i` and padding `2^i`, rectified and added back to its
input) maps a feature map of `n_filters` channels and spatial length `L`
to a feature map of the same channel count and the same spatial length
`L`, for every layer of the stack and every `n_layers ≥ 0`. -/
theorem C4_residual_block_preserves_length (a : InitArgs) (L : ℕ) (c : Conv1d)
    (hc : c ∈ (BPNet.init a).rconvs) (x : Tensor2) (hnf : 0 < a.n_filters)
    (hx : x.map List.length = List.replicate a.n_filters L) :
    (resBlock c x).map (fun y => y.map List.length)
      = some (List.replicate a.n_filters L) := by
  obtain ⟨h1, h2, h3⟩ := rconv_props a L c hc
  obtain ⟨y, hy, hys⟩ := resBlock_shape c x h1 h2 h3 hnf hx
  rw [hy, Option.map_some', hys]

theorem C4_residual_block_preserves_length_witness :
    ((BPNet.init cArgs4).rconvs.getD 0 dConv ∈ (BPNet.init cArgs4).rconvs
      ∧ 0 < cArgs4.n_filters)
    ∧ (resBlock ((BPNet.init cArgs4).rconvs.getD 0 dConv) [[0, 0, 0]]).map
        (fun y => y.map List.length) = some (List.replicate cArgs4.n_filters 3) :=
  ⟨⟨by decide, by decide⟩,
   C4_residual_block_preserves_length cArgs4 3 ((BPNet.init cArgs4).rconvs.getD 0 dConv)
     (by decide) [[0, 0, 0]] (by decide) (by decide)⟩

/-- C8: when the model is constructed with `n_control_tracks = 0`,
`forward` with the control input omitted (`X_ctl = None`, which is what
omitting the argument means in Python) succeeds, while `forward` with a
non-empty control tensor fails with a shape-mismatch error at
forward-pass time (the profile convolution rejects the extra channels). -/
theorem C8_control_track_mismatch (a : InitArgs) (lg : ℚ → ℚ) (X C : Tensor3) (L : ℕ)
    (hnf : 0 < a.n_filters) (hnc : a.n_control_tracks = 0)
    (hX : ∀ x ∈ X, x.map List.length = List.replicate 4 L)
    (ht : 2 * (BPNet.init a).trimming < L) (hne : X ≠ [])
    (hCl : C.length = X.length) (hCch : ∀ c ∈ C, 0 < c.length) :
    ((BPNet.init a).forward lg X none).isSome = true
    ∧ (BPNet.init a).forward lg X (some C) = none := by
  constructor
  · have h := forward_shape a lg X none L hnf hX hnc ht
    cases hf : (BPNet.init a).forward lg X none with
    | none => rw [hf] at h; simp at h
    | some p => rfl
  · exact forward_ctl_mismatch a lg X C L hnf hX hnc hCl hne hCch

theorem C8_control_track_mismatch_witness :
    (cArgs.n_control_tracks = 0 ∧ cCtl.length = cX.length)
    ∧ ((BPNet.init cArgs).forward cid cX none).isSome = true
    ∧ (BPNet.init cArgs).forward cid cX (some cCtl) = none :=
  ⟨⟨by decide, by decide⟩,
   C8_control_track_mismatch cArgs cid cX cCtl 3 (by decide) (by decide) (by decide)
     (by decide) (by decide) (by decide) (by decide)⟩

/-- C9: constructing BPNet with `trimming = 0` stores
`trimming = 2 ^ n_layers` — Python's `trimming or 2 ** n_layers` treats
the explicit value 0 like an unset trimming — and no constructed model
ever has zero trim. -/
theorem C9_trimming_zero_default (a : InitArgs) :
    (BPNet.init { a with trimming := some 0 }).trimming = 2 ^ a.n_layers
    ∧ (BPNet.init { a with trimming := none }).trimming = 2 ^ a.n_layers
    ∧ (BPNet.init a).trimming ≠ 0 := by
  refine ⟨rfl, rfl, ?_⟩
  show pyOr a.trimming (2 ^ a.n_layers) ≠ 0
  have hp : 0 < 2 ^ a.n_layers := Nat.two_pow_pos a.n_layers
  cases ht : a.trimming with
  | none => simp only [pyOr]; omega
  | some k =>
    cases k with
    | zero => simp only [pyOr]; omega
    | succ j => simp only [pyOr]; omega

/-- C10: `forward` silently tolerates `trimming < 37`.  The count head
slices with `start - 37 = trimming - 37`, which is negative whenever
`trimming < 37`; under Python slice semantics the window then wraps to
the tail `row.drop (L + trimming - 37)` of length `37 - trimming`, which
differs from the trimmed window widened by 37 on each side (length
`(L - 2*trimming) + 74`), and `forward` still succeeds instead of
failing. -/
theorem C10_count_window_negative_slice (a : InitArgs) (lg : ℚ → ℚ) (X : Tensor3)
    (Xctl : Option Tensor3) (L : ℕ) (hnf : 0 < a.n_filters)
    (hX : ∀ x ∈ X, x.map List.length = List.replicate 4 L)
    (hctl : match Xctl with
            | none => a.n_control_tracks = 0
            | some C => 0 < a.n_control_tracks ∧ C.length = X.length ∧
                ∀ c ∈ C, c.map List.length = List.replicate a.n_control_tracks L)
    (ht : 2 * (BPNet.init a).trimming < L)
    (ht37 : (BPNet.init a).trimming < 37)
    (hL37 : 37 ≤ L + (BPNet.init a).trimming) :
    ((BPNet.init a).forward lg X Xctl).isSome = true
    ∧ (∀ row : Tensor1, row.length = L →
        countWindow (BPNet.init a).trimming L row
          = row.drop (L + (BPNet.init a).trimming - 37)
        ∧ (countWindow (BPNet.init a).trimming L row).length
          = 37 - (BPNet.init a).trimming)
    ∧ 37 - (BPNet.init a).trimming ≠ (L - 2 * (BPNet.init a).trimming) + 74 := by
  refine ⟨?_, ?_, by omega⟩
  · have h := forward_shape a lg X Xctl L hnf hX hctl ht
    cases hf : (BPNet.init a).forward lg X Xctl with
    | none => rw [hf] at h; simp at h
    | some p => rfl
  · intro row hrow
    have hdrop := countWindow_neg (BPNet.init a).trimming L row hrow ht37 (by omega) hL37
    refine ⟨hdrop, ?_⟩
    rw [hdrop, List.length_drop, hrow]
    omega

theorem C10_count_window_negative_slice_witness :
    ((BPNet.init cArgs10).trimming < 37 ∧ 2 * (BPNet.init cArgs10).trimming < 25)
    ∧ ((BPNet.init cArgs10).forward cid cX10 none).isSome = true
    ∧ (∀ row : Tensor1, row.length = 25 →
        countWindow (BPNet.init cArgs10).trimming 25 row
          = row.drop (25 + (BPNet.init cArgs10).trimming - 37)
        ∧ (countWindow (BPNet.init cArgs10).trimming 25 row).length
          = 37 - (BPNet.init cArgs10).trimming)
    ∧ 37 - (BPNet.init cArgs10).trimming ≠ (25 - 2 * (BPNet.init cArgs10).trimming) + 74 :=
  ⟨⟨by decide, by decide⟩,
   C10_count_window_negative_slice cArgs10 cid cX10 none 25 (by decide) (by decide)
     (by decide) (by decide) (by decide) (by decide)⟩

lemma training_step_none_valid (m : BPNet) (lg : ℚ → ℚ) (lse : Tensor1 → ℚ)
    (nc : ℚ → ℚ) (perf : Tensor3 → Tensor3 → Tensor2 → Measures) (st : TrainState)
    (b : Tensor3 × Option Tensor3 × Tensor3) :
    m.training_step lg lse nc perf st b none = none := by
  obtain ⟨X, Xctl, y⟩ := b
  cases hf : m.forward lg X Xctl with
  | none => simp only [BPNet.training_step, hf]
  | some p =>
    obtain ⟨yp, yc⟩ := p
    simp only [BPNet.training_step, hf]

/-- C2: the scalar loss returned by `training_step` equals
`mean(MNLLLoss(log_softmax(flattened profile predictions), flattened
targets)) + alpha * mean(log1pMSELoss(predicted log-counts, total
observed counts))`, where the count target of example `i` is the single
combined total `sum over all strands and positions of y i` (the sum of
the per-strand totals), not a per-strand total. -/
theorem C2_training_loss_formula (m : BPNet) (lg : ℚ → ℚ) (lse : Tensor1 → ℚ)
    (nc : ℚ → ℚ) (perf : Tensor3 → Tensor3 → Tensor2 → Measures) (st : TrainState)
    (X : Tensor3) (Xctl : Option Tensor3) (y : Tensor3)
    (valid : Option (Tensor3 × Option Tensor3 × Tensor3))
    (h : (m.training_step lg lse nc perf st (X, Xctl, y) valid).isSome = true) :
    (m.training_step lg lse nc perf st (X, Xctl, y) valid).map (fun r => r.loss)
      = (m.forward lg X Xctl).map (fun p =>
          meanQ (MNLLLoss nc ((p.1.map List.flatten).map (logSoftmax lse))
            (y.map List.flatten))
          + m.alpha * meanQ (log1pMSELoss lg p.2
              (y.map (fun ex => [(ex.map List.sum).sum])))) := by
  cases hf : m.forward lg X Xctl with
  | none =>
    simp only [BPNet.training_step, hf, Option.isSome_none] at h
    exact Bool.noConfusion h
  | some p =>
    obtain ⟨yp, yc⟩ := p
    cases valid with
    | none =>
      rw [training_step_none_valid] at h
      exact Bool.noConfusion h
    | some v =>
      obtain ⟨Xv, Xvctl, yv⟩ := v
      cases hp : m.predict lg Xv Xvctl 64 with
      | none =>
        simp only [BPNet.training_step, hf, hp, Option.isSome_none] at h
        exact Bool.noConfusion h
      | some q =>
        obtain ⟨ypv, ycv⟩ := q
        simp only [BPNet.training_step, hf, hp, Option.map_some']
        rw [Option.some.injEq]
        have hy : (y.map List.flatten).map (fun v => [v.sum])
            = y.map (fun ex => [(ex.map List.sum).sum]) := by
          rw [List.map_map]
          apply List.map_congr_left
          intro ex _
          show [ex.flatten.sum] = _
          rw [List.sum_flatten]
        rw [hy]

theorem C2_training_loss_formula_witness :
    (((BPNet.init cArgs).training_step cid clse cnc cperf cState cBatch
        (some cValid)).isSome = true)
    ∧ ((BPNet.init cArgs).training_step cid clse cnc cperf cState cBatch
        (some cValid)).map (fun r => r.loss)
      = ((BPNet.init cArgs).forward cid cX none).map (fun p =>
          meanQ (MNLLLoss cnc ((p.1.map List.flatten).map (logSoftmax clse))
            (cy.map List.flatten))
          + (BPNet.init cArgs).alpha * meanQ (log1pMSELoss cid p.2
              (cy.map (fun ex => [(ex.map List.sum).sum])))) :=
  ⟨by decide,
   C2_training_loss_formula (BPNet.init cArgs) cid clse cnc cperf cState cX none cy
     (some cValid) (by decide)⟩

/-- C5 counterexample: at global iteration 1 — not a multiple of the
spec's `validation_iter = 5` — a successful `training_step` still runs
the full validation block (`validated` is populated), refuting the claim
that validation occurs only when the iteration counter is a multiple of
`validation_iter`. -/
theorem C5_validation_runs_off_cadence_cex :
    ((BPNet.init cArgs).training_step cid clse cnc cperf cState cBatch
        (some cValid)).map (fun r => r.validated.isSome) = some true
    ∧ cState.iteration % 5 ≠ 0 := by
  constructor
  · decide
  · decide

/-- C5 amended: the source `training_step` (bpnet.py lines 281-344) has
no `validation_iter` gating at all: whenever it returns a result, it has
run the inference driver over the full validation set and computed the
performance measures, on every training iteration; and when no
validation set was supplied the step fails (line 305 calls
`self.predict(self.X_valid, ...)` on the missing set) instead of
skipping validation. -/
theorem C5_validation_every_step (m : BPNet) (lg : ℚ → ℚ) (lse : Tensor1 → ℚ)
    (nc : ℚ → ℚ) (perf : Tensor3 → Tensor3 → Tensor2 → Measures) (st : TrainState)
    (b : Tensor3 × Option Tensor3 × Tensor3) :
    m.training_step lg lse nc perf st b none = none
    ∧ ∀ v, (m.training_step lg lse nc perf st b (some v)).map
          (fun r => r.validated.isSome)
        = (m.training_step lg lse nc perf st b (some v)).map (fun _ => true) := by
  obtain ⟨X, Xctl, y⟩ := b
  refine ⟨training_step_none_valid m lg lse nc perf st (X, Xctl, y), ?_⟩
  intro v
  obtain ⟨Xv, Xvctl, yv⟩ := v
  cases hf : m.forward lg X Xctl with
  | none => simp only [BPNet.training_step, hf, Option.map_none']
  | some p =>
    obtain ⟨yp, yc⟩ := p
    cases hp : m.predict lg Xv Xvctl 64 with
    | none => simp only [BPNet.training_step, hf, hp, Option.map_none']
    | some q =>
      obtain ⟨ypv, ycv⟩ := q
      simp only [BPNet.training_step, hf, hp, Option.map_some', Option.isSome_some]

/-- C6: the checkpoint / best-loss / early-stop block of `training_step`
is commented out in the source (bpnet.py lines 337-342).  At a concrete
validation tick whose validation loss 5 is strictly below the best loss
100, the step persists nothing (`savedBest = false`), leaves the best
loss at 100 and leaves the early-stop counter at 0 — neither branch of
the claimed update ever executes. -/
theorem C6_checkpointing_absent :
    ((BPNet.init cArgs).training_step cid clse cnc cperf cState6 cBatch
        (some cValid)).map
        (fun r => (r.savedBest, r.state.bestLoss, r.state.earlyStopCount,
          r.validated.map Prod.snd))
      = some (false, cState6.bestLoss, cState6.earlyStopCount, some 5)
    ∧ (5 : ℚ) < cState6.bestLoss := by
  refine ⟨?_, by norm_num [cState6]⟩
  cases hf : (BPNet.init cArgs).forward cid cX none with
  | none =>
    have h2 : ((BPNet.init cArgs).forward cid cX none).isSome = true := by decide
    rw [hf] at h2
    exact Bool.noConfusion h2
  | some p =>
    obtain ⟨yp, yc⟩ := p
    cases hp : (BPNet.init cArgs).predict cid cX none 64 with
    | none =>
      have h2 : ((BPNet.init cArgs).predict cid cX none 64).isSome = true := by decide
      rw [hp] at h2
      exact Bool.noConfusion h2
    | some q =>
      obtain ⟨ypv, ycv⟩ := q
      show ((BPNet.init cArgs).training_step cid clse cnc cperf cState6 (cX, none, cy)
          (some (cX, none, [[[1]]]))).map _ = _
      simp only [BPNet.training_step, hf, hp, Option.map_some']
      rw [Option.some.injEq]
      have hvl : meanQ (cperf (ypv.map (fun ex =>
            splitLens (ex.map List.length) (logSoftmax clse ex.flatten)))
            [[[1]]] ycv).profile_mnll
          + (BPNet.init cArgs).alpha * meanQ (cperf (ypv.map (fun ex =>
            splitLens (ex.map List.length) (logSoftmax clse ex.flatten)))
            [[[1]]] ycv).count_mse = 5 := by
        have ha : (BPNet.init cArgs).alpha = 1 := rfl
        simp only [cperf, ha, meanQ]
        norm_num
      rw [hvl]

/-- C7: the body of `predict` (bpnet.py lines 263-278) contains no
`torch.no_grad()` block — contrary to its own docstring — so a call to
`predict` made under the default gradient-enabled autograd mode records
gradient information (the per-chunk forward passes run under the ambient
mode), refuting the claim that `predict` never records gradient
information. -/
theorem C7_predict_records_gradients :
    ((BPNet.init cArgs).predictTracked cid true cX none 64).2 = true := by
  decide

/-- C3 counterexample: on the empty input (batch count 0) with
`batch_size = 1`, `predict` fails — `numpy.arange(0, 0, 1)` yields no
chunks and `torch.cat` raises on an empty list of tensors — while
`forward` on the whole (empty) input succeeds with empty outputs, so
`predict` is not equal to `forward` for every input. -/
theorem C3_batching_empty_input_cex :
    (BPNet.init cArgs).predict cid ([] : Tensor3) none 1 = none
    ∧ (BPNet.init cArgs).forward cid ([] : Tensor3) none = some ([], []) := by
  constructor
  · rfl
  · rfl

/-- C3 amended: for every NONEMPTY input `X` (with a control batch of
matching batch count when present) and every positive batch size,
`predict` partitions the input into contiguous chunks, concatenates the
chunk outputs in input order, and returns exactly `forward` applied to
the whole input — hence identical values for any two positive batch
sizes — and on success the output batch counts equal the input batch
count. -/
theorem C3_predict_matches_forward (m : BPNet) (lg : ℚ → ℚ) (X : Tensor3)
    (Xctl : Option Tensor3) (bs : ℕ) (hbs : 0 < bs) (hne : X ≠ [])
    (hctl : ∀ C, Xctl = some C → C.length = X.length) :
    m.predict lg X Xctl bs = m.forward lg X Xctl
    ∧ ∀ P Cc, m.forward lg X Xctl = some (P, Cc) →
        P.length = X.length ∧ Cc.length = X.length := by
  refine ⟨predict_eq_forward m lg X Xctl bs hbs hne hctl, ?_⟩
  intro P Cc hf
  exact forward_batch_len m lg X Xctl P Cc hf

theorem C3_predict_matches_forward_witness :
    (0 < 1 ∧ cX ≠ [])
    ∧ (BPNet.init cArgs).predict cid cX none 1 = (BPNet.init cArgs).forward cid cX none :=
  ⟨⟨by decide, by decide⟩,
   (C3_predict_matches_forward (BPNet.init cArgs) cid cX none 1 (by decide) (by decide)
     (by intro C hC; exact Option.noConfusion hC)).1⟩
